import Mathlib

/-!
Verification of the nomos-simulations mixnet protocol core against its
natural-language specification.

The Python sources are shallowly embedded:
* byte strings become `List Nat` (one `Nat` per byte),
* fallible code (`raise`) becomes `Except String` / `Option`,
* the per-queue `random.Random` becomes an explicit stream of values
  (`Nat → Bool` for coin flips, `Nat → Nat` for index draws),
* unbounded `while True` loops become fuel-indexed recursions, with
  termination stated as the existence of sufficient fuel.
-/

/-! ## FlaggedPacket (src/mixnet/protocol/nomssip.py) -/

/-- The 1-byte packet flag: `REAL = b"\x00"`, `NOISE = b"\x01"`. -/
inductive PacketFlag where
  | real : PacketFlag
  | noise : PacketFlag
deriving DecidableEq, Repr

/-- `PacketFlag.value`: the byte string of each enum member. -/
def PacketFlag.value : PacketFlag → List Nat
  | .real => [0]
  | .noise => [1]

/-- A flagged packet: a flag together with a message body. -/
structure FlaggedPacket where
  flag : PacketFlag
  message : List Nat
deriving DecidableEq, Repr

/-- `FlaggedPacket.bytes`: `self.flag.value + self.message`. -/
def FlaggedPacket.toBytes (p : FlaggedPacket) : List Nat :=
  p.flag.value ++ p.message

/-- `PacketFlag(...)` by value: the Enum lookup raises `ValueError` on a byte
that is not `0x00` or `0x01`. -/
def PacketFlag.ofByte : Nat → Except String PacketFlag
  | 0 => .ok .real
  | 1 => .ok .noise
  | _ => .error "is not a valid PacketFlag"

/-- `FlaggedPacket.from_bytes`: raises `ValueError` on an input shorter
than 1 byte, otherwise parses `packet[:1]` as the flag (which itself can
raise on an unknown byte) and takes `packet[1:]` as the message. -/
def FlaggedPacket.from_bytes : List Nat → Except String FlaggedPacket
  | [] => .error "Invalid message format"
  | b :: rest => (PacketFlag.ofByte b).map (fun f => ⟨f, rest⟩)

/-! ## Nomssip framing (src/mixnet/protocol/nomssip.py) -/

/-- The noise packet built in `Nomssip.add_conn`:
`FlaggedPacket(PacketFlag.NOISE, bytes(msg_size)).bytes()`. -/
def noisePacket (msg_size : Nat) : List Nat :=
  (FlaggedPacket.mk .noise (List.replicate msg_size 0)).toBytes

/-- `Nomssip.publish`: asserts `len(msg) == msg_size`, then wraps the
message with the REAL flag. `none` models a failed assertion. -/
def nomssipPublishFrame (msg_size : Nat) (msg : List Nat) : Option (List Nat) :=
  if msg.length = msg_size then
    some (FlaggedPacket.mk .real msg).toBytes
  else
    none

/-- Result of `Nomssip._process_inbound_msg` on one frame: either the
frame is consumed (dropped noise, or gossiped real payload), or a Python
exception escapes. -/
inductive InboundResult where
  | dropped : InboundResult
  | delivered (payload : List Nat) : InboundResult
deriving DecidableEq, Repr

/-- `Nomssip._process_inbound_msg`: parse the frame with
`FlaggedPacket.from_bytes` (any `ValueError` propagates — there is no
try/except around it), drop NOISE, deliver REAL payloads. -/
def nomssipProcessInbound (msg : List Nat) : Except String InboundResult :=
  (FlaggedPacket.from_bytes msg).map (fun p =>
    match p.flag with
    | .noise => .dropped
    | .real => .delivered p.message)

/-! ## Gossip overlay (src/mixnet/protocol/gossip.py)

Connections are identified by `Nat` ids, messages by their `id()` value
(a `Nat`). The duplicate cache `packet_cache : dict[int, int]` is an
association list preserving insertion order, as a Python dict does. -/

/-- Look a message id up in the duplicate cache. -/
def cacheLookup (cache : List (Nat × Nat)) (id : Nat) : Option Nat :=
  (cache.find? (fun e => e.1 = id)).map Prod.snd

/-- `self.packet_cache[id] = v`: overwrite in place, or append. -/
def cacheSet (cache : List (Nat × Nat)) (id v : Nat) : List (Nat × Nat) :=
  match cache with
  | [] => [(id, v)]
  | e :: rest => if e.1 = id then (id, v) :: rest else e :: cacheSet rest id v

/-- `del self.packet_cache[id]`. -/
def cacheErase (cache : List (Nat × Nat)) (id : Nat) : List (Nat × Nat) :=
  cache.filter (fun e => e.1 ≠ id)

/-- The state of one `Gossip` overlay: the peering degree from its config,
the list of duplex connections, and the duplicate cache. -/
structure GossipState where
  peering_degree : Nat
  conns : List Nat
  packet_cache : List (Nat × Nat)
deriving DecidableEq, Repr

/-- `Gossip.can_accept_conn`: `len(self.conns) < self.config.peering_degree`. -/
def can_accept_conn (st : GossipState) : Bool :=
  st.conns.length < st.peering_degree

/-- `Gossip.add_conn`: raise `PeeringDegreeReached` if the overlay cannot
accept another connection; otherwise append the duplex connection and
spawn the inbound-processing activity (the returned `Bool` records that
the activity was spawned). -/
def add_conn (st : GossipState) (conn : Nat) : Except Unit (GossipState × Bool) :=
  if can_accept_conn st then
    .ok ({ st with conns := st.conns ++ [conn] }, true)
  else
    .error ()

/-- `Gossip._check_update_cache`: add the message id to the cache and
return whether it was already there, together with the updated cache.
When publishing, an unseen id is inserted with count 0; on inbound, an
unseen id is inserted with count 1, and a seen id has its count
incremented and is evicted once the count reaches the peering degree. -/
def check_update_cache (st : GossipState) (id : Nat) (publishing : Bool) :
    Bool × List (Nat × Nat) :=
  let seen := (cacheLookup st.packet_cache id).isSome
  if publishing then
    if seen then (seen, st.packet_cache)
    else (seen, cacheSet st.packet_cache id 0)
  else
    if seen then
      let cnt := (cacheLookup st.packet_cache id).getD 0 + 1
      if st.peering_degree ≤ cnt then (seen, cacheErase st.packet_cache id)
      else (seen, cacheSet st.packet_cache id cnt)
    else (seen, cacheSet st.packet_cache id 1)

/-- The observable effect of one overlay operation: the successor state,
the connections the message was gossiped to (in order), and whether the
local handler was invoked. -/
structure GossipEffect where
  state : GossipState
  sends : List Nat
  handlerCalled : Bool
deriving DecidableEq, Repr

/-- `Gossip._gossip(msg, excludes)`: send to every connection not in
`excludes`. -/
def gossip_send (st : GossipState) (excludes : List Nat) : List Nat :=
  st.conns.filter (fun c => ¬ c ∈ excludes)

/-- `Gossip.publish`: touch the cache with `publishing=True`; if the
message was not already seen, gossip it to all peers and invoke the
handler. -/
def gossipPublish (st : GossipState) (id : Nat) : GossipEffect :=
  let r := check_update_cache st id true
  if r.1 then
    { state := { st with packet_cache := r.2 }, sends := [], handlerCalled := false }
  else
    { state := { st with packet_cache := r.2 },
      sends := gossip_send st [],
      handlerCalled := true }

/-- One iteration of `Gossip.__process_inbound_conn` for a message
arriving on connection `frm`: update the cache; a seen message is
suppressed (`continue`), an unseen one is re-gossiped to every other
peer and handed to the handler (`Gossip._process_inbound_msg`). -/
def gossipInbound (st : GossipState) (id : Nat) (frm : Nat) : GossipEffect :=
  let r := check_update_cache st id false
  if r.1 then
    { state := { st with packet_cache := r.2 }, sends := [], handlerCalled := false }
  else
    { state := { st with packet_cache := r.2 },
      sends := gossip_send st [frm],
      handlerCalled := true }

/-- Iterate `gossipInbound` for `n` successive arrivals of the same
message id, each from connection `frm`. -/
def gossipInboundIter (st : GossipState) (id : Nat) (frm : Nat) : Nat → GossipState
  | 0 => st
  | n + 1 => (gossipInbound (gossipInboundIter st id frm n) id frm).state

/-! ## Temporal-mix queues
(src/deprecated/mixnet-v1/fullcycle/protocol/temporalmix.py)

The buffer `self._queue` is a `List α`; `rng.randint(0, 1)` becomes a
stream of coin flips `f : Nat → Bool` indexed by a running flip counter,
and a draw `rng.randint(0, n - 1)` is modelled as `r % n` for a raw
stream value `r`. The `while True` loops take a fuel argument; `none`
means the fuel ran out before the loop returned. -/

/-- `MixQueue.put`: `self._queue.append(data)`. -/
def mixPut (q : List α) (x : α) : List α := q ++ [x]

/-- `MinSizeMixQueue.get` prelude: `while len(self._queue) < self._mix_pool_size:
self._queue.append(self._noise_msg)`. -/
def padTo (minSize : Nat) (noise : α) (q : List α) : List α :=
  q ++ List.replicate (minSize - q.length) noise

/-- `self._queue.pop(i)`: the element at index `i` and the remaining
buffer; `none` when the index is out of range. -/
def popAt (q : List α) (i : Nat) : Option (α × List α) :=
  match q.get? i with
  | some x => some (x, q.eraseIdx i)
  | none => none

/-- One pass of `for i in range(len(self._queue))` in the coin-flipping
disciplines, starting at position `i` with flip counter `k`: on the
first flip of 1 return `pop(i)`; if the pass ends without a hit, hand
the advanced flip counter back to the enclosing `while True`. -/
def coinPass (f : Nat → Bool) (q : List α) (i k : Nat) : (α × List α) ⊕ Nat :=
  if h : i < q.length then
    if f k then Sum.inl (q.get ⟨i, h⟩, q.eraseIdx i)
    else coinPass f q (i + 1) (k + 1)
  else Sum.inr k
termination_by q.length - i

/-- The `while True` loop of `PureCoinFlipppingQueue.get` /
`PermutedCoinFlipppingQueue.get`: repeat passes until one returns. -/
def coinWhile (f : Nat → Bool) (q : List α) : Nat → Nat → Option (α × List α)
  | _, 0 => none
  | k, fuel + 1 =>
    match coinPass f q 0 k with
    | Sum.inl res => some res
    | Sum.inr k2 => coinWhile f q k2 fuel

/-- `PureCoinFlipppingQueue.get` (the spelling follows the source): pad
to the minimum pool size, then coin-flip scan until an element is
released. -/
def pureCoinFlipppingGet (minSize : Nat) (noise : α) (f : Nat → Bool)
    (fuel : Nat) (q : List α) : Option (α × List α) :=
  coinWhile f (padTo minSize noise q) 0 fuel

/-- `PureRandomSamplingQueue.get`: pad to the minimum pool size, then
`i = rng.randint(0, len - 1); return self._queue.pop(i)`, with the raw
draw `r` reduced modulo the buffer length. -/
def pureRandomSamplingGet (minSize : Nat) (noise : α) (r : Nat)
    (q : List α) : Option (α × List α) :=
  let p := padTo minSize noise q
  popAt p (r % p.length)

/-- Fuel-indexed core of the `random.Random.shuffle` model: remove the
element drawn by the stream and recurse on the rest. The fuel is the
initial length, so the whole buffer is consumed. -/
def shuffleGo (r : Nat → Nat) : Nat → Nat → List α → List α
  | 0, _, _ => []
  | _ + 1, _, [] => []
  | n + 1, k, x :: xs =>
    let q := x :: xs
    let i := r k % q.length
    q.getD i x :: shuffleGo r n (k + 1) (q.eraseIdx i)

/-- `rng.shuffle(self._queue)` modelled as a stream-driven permutation:
repeatedly extract the element at a drawn index. Every permutation is
reachable for a suitable stream, and the result is always a
rearrangement of the input. -/
def shuffleModel (r : Nat → Nat) (k : Nat) (q : List α) : List α :=
  shuffleGo r q.length k q

/-- `PermutedCoinFlipppingQueue.get`: pad, shuffle, then coin-flip scan. -/
def permutedCoinFlipppingGet (minSize : Nat) (noise : α) (r : Nat → Nat)
    (f : Nat → Bool) (fuel : Nat) (q : List α) : Option (α × List α) :=
  coinWhile f (shuffleModel r 0 (padTo minSize noise q)) 0 fuel

/-- One pass of the `for` loop in `NoisyCoinFlippingQueue.get`: on a
flip of 1 return `pop(i)`; on a flip of 0 at position 0 return the
noise message with the buffer untouched; otherwise move on. -/
def noisyPass (f : Nat → Bool) (noise : α) (q : List α) (i k : Nat) :
    (α × List α) ⊕ Nat :=
  if h : i < q.length then
    if f k then Sum.inl (q.get ⟨i, h⟩, q.eraseIdx i)
    else if i = 0 then Sum.inl (noise, q)
    else noisyPass f noise q (i + 1) (k + 1)
  else Sum.inr k
termination_by q.length - i

/-- The `while True` loop of `NoisyCoinFlippingQueue.get`. -/
def noisyWhile (f : Nat → Bool) (noise : α) (q : List α) :
    Nat → Nat → Option (α × List α)
  | _, 0 => none
  | k, fuel + 1 =>
    match noisyPass f noise q 0 k with
    | Sum.inl res => some res
    | Sum.inr k2 => noisyWhile f noise q k2 fuel

/-- `NoisyCoinFlippingQueue.get`: return the noise message on an empty
buffer, otherwise run the noisy coin-flipping loop. -/
def noisyCoinFlippingGet (noise : α) (f : Nat → Bool) (fuel : Nat)
    (q : List α) : Option (α × List α) :=
  if q.length = 0 then some (noise, q)
  else noisyWhile f noise q 0 fuel

/-- `NonMixQueue.get`: FIFO head if non-empty, else the noise message
(the underlying framework queue is FIFO). -/
def nonMixGet (noise : α) (q : List α) : α × List α :=
  match q with
  | [] => (noise, [])
  | x :: xs => (x, xs)

/-! ## MixSimplexConnection (src/mixnet/protocol/connection.py)

The emitter loop `__run` is embedded as a step function over rounds.
The temporal-mix queue is a parameter: a state type `σ` with a `put`
and a total `get` (every discipline returns exactly one message per
`get`). Virtual time is a rational; each round sleeps
`1 / transmission_rate_per_sec`. -/

/-- The observable state of one `MixSimplexConnection`: the temporal-mix
queue state, the frames sent so far on the wrapped outbound connection
(with their virtual emission times), and the virtual clock. -/
structure MixConnState (σ α : Type) where
  queueState : σ
  sent : List (ℚ × α)
  now : ℚ
deriving Repr

/-- One round of `MixSimplexConnection.__run`, with `puts` the messages
the overlay put into the temporal-mix queue since the previous round:
`sleep(1 / R)`, `msg = queue.get()`, and — unless `skip_sending_noise`
is set and the message is the noise sentinel — `conn.send(msg)`. -/
def mixConnStep [DecidableEq α] (R : ℚ) (skip : Bool) (noise : α)
    (put : σ → α → σ) (get : σ → α × σ) (puts : List α)
    (st : MixConnState σ α) : MixConnState σ α :=
  let qs := puts.foldl put st.queueState
  let t := st.now + 1 / R
  let r := get qs
  if skip = true ∧ r.1 = noise then
    { queueState := r.2, sent := st.sent, now := t }
  else
    { queueState := r.2, sent := st.sent ++ [(t, r.1)], now := t }

/-- `n` rounds of the emitter loop, with an arbitrary put schedule
`puts` (round `i` sees the messages `puts i`). -/
def mixConnRun [DecidableEq α] (R : ℚ) (skip : Bool) (noise : α)
    (put : σ → α → σ) (get : σ → α × σ) (puts : Nat → List α) :
    Nat → MixConnState σ α → MixConnState σ α
  | 0, st => st
  | n + 1, st =>
    mixConnStep R skip noise put get (puts n)
      (mixConnRun R skip noise put get puts n st)

/-! ## Sphinx packet builder (src/mixnet/protocol/sphinx.py,
GlobalConfig and MixMembership from
src/deprecated/mixnet-overall/protocol/config.py) -/

/-- `MixMembership`: the list of nodes (by id). -/
structure MixMembership where
  nodes : List Nat
deriving DecidableEq, Repr

/-- `MixMembership.generate_route`: `rng.choices(self.nodes, k=length)` —
`length` draws with replacement, each draw taken from the stream `r`
modulo the population size. `random.choices` raises `IndexError` on an
empty population when `k > 0`, modelled as `none`. -/
def generate_route (m : MixMembership) (r : Nat → Nat) (length : Nat) :
    Option (List Nat) :=
  if length = 0 then some []
  else if m.nodes.length = 0 then none
  else some ((List.range length).map (fun k => m.nodes.getD (r k % m.nodes.length) 0))

/-- `GlobalConfig`: the global parameters used across all nodes. -/
structure GlobalConfig where
  membership : MixMembership
  transmission_rate_per_sec : Nat
  max_message_size : Nat
  max_mix_path_length : Nat
deriving Repr

/-- An opaque Sphinx packet: what the collaborator returns on success. -/
structure SphinxPacketM where
  payload : List Nat
  routeLen : Nat
deriving DecidableEq, Repr

/-- Modelled from the spec: `pysphinx.sphinx.SphinxPacket.build` is an
external collaborator absent from the repository; per the spec's
`PacketCrypto` contract, `build` fails if the payload exceeds
`max_plain_payload_size` or the route is longer than
`max_route_length`, and otherwise yields a packet. -/
def sphinxPacketBuild (message : List Nat) (route : List Nat)
    (max_route_length max_plain_payload_size : Nat) :
    Except String SphinxPacketM :=
  if max_plain_payload_size < message.length then .error "payload too large"
  else if max_route_length < route.length then .error "route too long"
  else .ok ⟨message, route.length⟩

/-- `SphinxPacketBuilder.build`: raise `ValueError` if `path_len <= 0`
or the message is longer than `max_message_size`; then sample a route
of `path_len` hops and build a Sphinx packet over it with limits
`max_route_length = max_mix_path_length` and
`max_plain_payload_size = max_message_size`. -/
def SphinxPacketBuilder_build (message : List Nat) (cfg : GlobalConfig)
    (r : Nat → Nat) (path_len : Int) :
    Except String (SphinxPacketM × List Nat) :=
  if path_len ≤ 0 then .error "path_len must be greater than 0"
  else if cfg.max_message_size < message.length then .error "message is too long"
  else
    match generate_route cfg.membership r path_len.toNat with
    | none => .error "IndexError"
    | some route =>
      (sphinxPacketBuild message route cfg.max_mix_path_length
        cfg.max_message_size).map (fun pkt => (pkt, route))

/-! ## Helper lemmas: duplicate cache -/

theorem cacheLookup_nil (id : Nat) : cacheLookup [] id = none := rfl

theorem cacheLookup_set (c : List (Nat × Nat)) (id v : Nat) :
    cacheLookup (cacheSet c id v) id = some v := by
  induction c with
  | nil => simp [cacheLookup, cacheSet, List.find?]
  | cons e rest ih =>
    by_cases he : e.1 = id
    · simp [cacheSet, he, cacheLookup, List.find?]
    · simpa [cacheSet, he, cacheLookup, List.find?] using ih

theorem cacheLookup_erase (c : List (Nat × Nat)) (id : Nat) :
    cacheLookup (cacheErase c id) id = none := by
  simp [cacheLookup, cacheErase, List.find?_eq_none]

theorem gossip_send_nil (st : GossipState) : gossip_send st [] = st.conns := by
  simp [gossip_send]

/-- On a message id currently cached with count `k`, one inbound arrival is
suppressed, and the count becomes `k + 1` unless that reaches the peering
degree, in which case the entry is evicted. -/
theorem gossipInbound_seen (st : GossipState) (id frm k : Nat)
    (hk : cacheLookup st.packet_cache id = some k) :
    (gossipInbound st id frm).sends = [] ∧
    (gossipInbound st id frm).handlerCalled = false ∧
    (gossipInbound st id frm).state.peering_degree = st.peering_degree ∧
    (gossipInbound st id frm).state.conns = st.conns ∧
    cacheLookup (gossipInbound st id frm).state.packet_cache id =
      (if st.peering_degree ≤ k + 1 then none else some (k + 1)) := by
  have hseen : (cacheLookup st.packet_cache id).isSome = true := by rw [hk]; rfl
  by_cases hd : st.peering_degree ≤ k + 1
  · simp [gossipInbound, check_update_cache, hseen, hk, hd, cacheLookup_erase]
  · simp [gossipInbound, check_update_cache, hseen, hk, hd, cacheLookup_set]

/-- After publishing, `k` inbound arrivals leave the peering degree and
connection list unchanged and the cached count equal to `k`, as long as
`k` is below the peering degree. -/
theorem gossipInboundIter_count (st : GossipState) (id frm : Nat)
    (h0 : cacheLookup st.packet_cache id = some 0) :
    ∀ k, k < st.peering_degree →
      (gossipInboundIter st id frm k).peering_degree = st.peering_degree ∧
      (gossipInboundIter st id frm k).conns = st.conns ∧
      cacheLookup (gossipInboundIter st id frm k).packet_cache id = some k := by
  intro k
  induction k with
  | zero => intro _; exact ⟨rfl, rfl, h0⟩
  | succ k ih =>
    intro hk
    obtain ⟨hdeg, hconns, hcount⟩ := ih (Nat.lt_of_succ_lt hk)
    have hstep := gossipInbound_seen (gossipInboundIter st id frm k) id frm k hcount
    have hlt : ¬ (gossipInboundIter st id frm k).peering_degree ≤ k + 1 := by
      rw [hdeg]; omega
    refine ⟨?_, ?_, ?_⟩
    · rw [gossipInboundIter, hstep.2.2.1, hdeg]
    · rw [gossipInboundIter, hstep.2.2.2.1, hconns]
    · rw [gossipInboundIter, hstep.2.2.2.2, if_neg hlt]

/-- C3: for a `Gossip` overlay with peering degree `d ≥ 1` and a message
`m` not in the cache, `publish(m)` inserts the cache entry with count 0,
gossips `m` to all peers, and invokes the handler; each of the next `d`
inbound arrivals of `m` is suppressed (no re-gossip, no handler call)
and increments the count; and after exactly `d` inbound arrivals the
cache entry for `m` is evicted. -/
theorem C3_gossip_cache_lifecycle (st : GossipState) (id frm : Nat)
    (hd : 1 ≤ st.peering_degree)
    (hm : cacheLookup st.packet_cache id = none) :
    (gossipPublish st id).sends = st.conns ∧
    (gossipPublish st id).handlerCalled = true ∧
    cacheLookup (gossipPublish st id).state.packet_cache id = some 0 ∧
    (∀ k, k < st.peering_degree →
      cacheLookup (gossipInboundIter (gossipPublish st id).state id frm k).packet_cache id
        = some k ∧
      (gossipInbound (gossipInboundIter (gossipPublish st id).state id frm k) id frm).sends
        = [] ∧
      (gossipInbound (gossipInboundIter (gossipPublish st id).state id frm k) id frm).handlerCalled
        = false) ∧
    cacheLookup
      (gossipInboundIter (gossipPublish st id).state id frm st.peering_degree).packet_cache
      id = none := by
  have heq : (gossipPublish st id).state
      = { st with packet_cache := cacheSet st.packet_cache id 0 } := by
    simp [gossipPublish, check_update_cache, hm]
  have hsends : (gossipPublish st id).sends = st.conns := by
    simp [gossipPublish, check_update_cache, hm, gossip_send]
  have hhandler : (gossipPublish st id).handlerCalled = true := by
    simp [gossipPublish, check_update_cache, hm]
  have h0 : cacheLookup (gossipPublish st id).state.packet_cache id = some 0 := by
    rw [heq]; exact cacheLookup_set st.packet_cache id 0
  have hdeg0 : (gossipPublish st id).state.peering_degree = st.peering_degree := by
    rw [heq]
  have hcnt := gossipInboundIter_count (gossipPublish st id).state id frm h0
  refine ⟨hsends, hhandler, h0, ?_, ?_⟩
  · intro k hk
    obtain ⟨hdg, _, hcount⟩ := hcnt k (by rw [hdeg0]; exact hk)
    have hstep := gossipInbound_seen _ id frm k hcount
    exact ⟨hcount, hstep.1, hstep.2.1⟩
  · have hk1 : st.peering_degree - 1 < (gossipPublish st id).state.peering_degree := by
      rw [hdeg0]; omega
    obtain ⟨hdg, _, hcount⟩ := hcnt (st.peering_degree - 1) hk1
    have hstep := gossipInbound_seen _ id frm (st.peering_degree - 1) hcount
    have hd1 : st.peering_degree = (st.peering_degree - 1) + 1 := by omega
    rw [hd1, gossipInboundIter, hstep.2.2.2.2, if_pos]
    rw [hdg, hdeg0]; omega

/-- C3 witness: degree 1, one peer `7`, fresh message id `5`. -/
theorem C3_gossip_cache_lifecycle_witness :
    (gossipPublish ⟨1, [7], []⟩ 5).sends = [7] ∧
    cacheLookup (gossipPublish ⟨1, [7], []⟩ 5).state.packet_cache 5 = some 0 ∧
    (gossipInbound (gossipInboundIter (gossipPublish ⟨1, [7], []⟩ 5).state 5 7 0) 5 7).sends
      = [] ∧
    cacheLookup (gossipInboundIter (gossipPublish ⟨1, [7], []⟩ 5).state 5 7 1).packet_cache 5
      = none := by
  have h := C3_gossip_cache_lifecycle ⟨1, [7], []⟩ 5 7 (by decide) rfl
  exact ⟨h.1, h.2.2.1, (h.2.2.2.1 0 (by decide)).2.1, h.2.2.2.2⟩

/-- C5: `Gossip.add_conn` raises `PeeringDegreeReached` exactly when the
connection list has reached the peering degree; the functional embedding
returns the untouched state only through the success case, so a rejected
call leaves the overlay unchanged and spawns no inbound activity. When
fewer than `d` connections are present, `add_conn` appends the new
connection and spawns the inbound-processing activity. -/
theorem C5_add_conn_peering_degree (st : GossipState) (conn : Nat) :
    (st.conns.length = st.peering_degree → add_conn st conn = Except.error ()) ∧
    (st.conns.length < st.peering_degree →
      add_conn st conn
        = Except.ok ({ st with conns := st.conns ++ [conn] }, true)) := by
  constructor
  · intro h
    have : can_accept_conn st = false := by
      simp [can_accept_conn, h]
    simp [add_conn, this]
  · intro h
    have : can_accept_conn st = true := by
      simp [can_accept_conn, h]
    simp [add_conn, this]

/-- C5 witness: degree 2; a full overlay rejects, a non-full one accepts. -/
theorem C5_add_conn_peering_degree_witness :
    add_conn ⟨2, [10, 11], []⟩ 12 = Except.error () ∧
    add_conn ⟨2, [10], []⟩ 12 = Except.ok (⟨2, [10, 12], []⟩, true) :=
  ⟨(C5_add_conn_peering_degree ⟨2, [10, 11], []⟩ 12).1 rfl,
   (C5_add_conn_peering_degree ⟨2, [10], []⟩ 12).2 (by decide)⟩

/-- C2: every frame placed on a mix outbound connection has length
exactly `1 + S`: the noise frame built in `Nomssip.add_conn`, and every
real frame produced by `Nomssip.publish` (whose payload length is
asserted equal to `S` before the flag byte is attached). -/
theorem C2_frame_length (S : Nat) :
    (noisePacket S).length = 1 + S ∧
    (∀ msg frame, nomssipPublishFrame S msg = some frame → frame.length = 1 + S) := by
  constructor
  · simp [noisePacket, FlaggedPacket.toBytes, PacketFlag.value]
    omega
  · intro msg frame h
    by_cases hlen : msg.length = S
    · simp [nomssipPublishFrame, hlen] at h
      subst h
      simp [FlaggedPacket.toBytes, PacketFlag.value, hlen]
      omega
    · simp [nomssipPublishFrame, hlen] at h

/-- C2 witness: `S = 2`. -/
theorem C2_frame_length_witness :
    (noisePacket 2).length = 1 + 2 ∧ ([0, 7, 8] : List Nat).length = 1 + 2 :=
  ⟨(C2_frame_length 2).1, (C2_frame_length 2).2 [7, 8] [0, 7, 8] rfl⟩

/-- C4 counterexample: an inbound frame whose first byte is `0x02` is
not dropped-and-skipped — `FlaggedPacket.from_bytes` raises `ValueError`
and the error escapes `Nomssip._process_inbound_msg`. -/
theorem C4_unknown_flag_counterexample :
    nomssipProcessInbound [2, 0] ≠ Except.ok InboundResult.dropped ∧
    nomssipProcessInbound [2, 0] = Except.error "is not a valid PacketFlag" := by
  constructor
  · intro h
    rw [show nomssipProcessInbound [2, 0]
        = Except.error "is not a valid PacketFlag" from rfl] at h
    exact Except.noConfusion h
  · rfl

/-- C4 (amended): on an inbound frame whose first byte is not a known
flag, `FlaggedPacket.from_bytes` raises `ValueError`; nothing in
`Nomssip._process_inbound_msg` or the inbound loop catches it, so the
exception escapes message processing instead of the frame being dropped
with the activity continuing. -/
theorem C4_unknown_flag_raises (b : Nat) (hb0 : b ≠ 0) (hb1 : b ≠ 1)
    (rest : List Nat) :
    nomssipProcessInbound (b :: rest) = Except.error "is not a valid PacketFlag" := by
  obtain ⟨m, rfl⟩ : ∃ m, b = m + 2 := ⟨b - 2, by omega⟩
  rfl

/-- C4 witness: first byte `2`. -/
theorem C4_unknown_flag_raises_witness :
    nomssipProcessInbound [2, 9] = Except.error "is not a valid PacketFlag" :=
  C4_unknown_flag_raises 2 (by decide) (by decide) [9]

/-- C9: serializing a flagged packet and parsing it back is the
identity, the serialized form has length exactly `1 + |message|`, and
`from_bytes` fails only on the empty input or on an unknown first
byte. -/
theorem C9_flagged_packet_roundtrip :
    (∀ (f : PacketFlag) (b : List Nat),
      FlaggedPacket.from_bytes (FlaggedPacket.mk f b).toBytes
          = Except.ok (FlaggedPacket.mk f b) ∧
      (FlaggedPacket.mk f b).toBytes.length = 1 + b.length) ∧
    (∀ (p : List Nat) (e : String), FlaggedPacket.from_bytes p = Except.error e →
      p = [] ∨ ∃ b rest, p = b :: rest ∧ b ≠ 0 ∧ b ≠ 1) := by
  constructor
  · intro f b
    cases f
    · exact ⟨rfl, by simp [FlaggedPacket.toBytes, PacketFlag.value]; omega⟩
    · exact ⟨rfl, by simp [FlaggedPacket.toBytes, PacketFlag.value]; omega⟩
  · intro p e h
    match p with
    | [] => exact Or.inl rfl
    | 0 :: rest => simp [FlaggedPacket.from_bytes, PacketFlag.ofByte, Except.map] at h
    | 1 :: rest => simp [FlaggedPacket.from_bytes, PacketFlag.ofByte, Except.map] at h
    | (m + 2) :: rest =>
      exact Or.inr ⟨m + 2, rest, rfl, by omega, by omega⟩

/-- C9 witness: a REAL packet with body `[7, 8]`, and the failing input
`[5, 6]`. -/
theorem C9_flagged_packet_roundtrip_witness :
    FlaggedPacket.from_bytes (FlaggedPacket.mk .real [7, 8]).toBytes
        = Except.ok (FlaggedPacket.mk .real [7, 8]) ∧
    (([5, 6] : List Nat) = []
      ∨ ∃ b rest, ([5, 6] : List Nat) = b :: rest ∧ b ≠ 0 ∧ b ≠ 1) :=
  ⟨(C9_flagged_packet_roundtrip.1 .real [7, 8]).1,
   C9_flagged_packet_roundtrip.2 [5, 6] "is not a valid PacketFlag" rfl⟩

/-! ## Helper lemmas: temporal-mix queues -/

theorem padTo_le_length (minSize : Nat) (noise : α) (q : List α) :
    minSize ≤ (padTo minSize noise q).length := by
  simp [padTo]
  omega

theorem popAt_some (q : List α) (j : Nat) (x : α) (q2 : List α)
    (h : popAt q j = some (x, q2)) :
    x ∈ q ∧ q2.length + 1 = q.length ∧ j < q.length := by
  unfold popAt at h
  cases hg : q.get? j with
  | none => rw [hg] at h; exact absurd h (by simp)
  | some y =>
    rw [hg] at h
    simp only [Option.some.injEq, Prod.mk.injEq] at h
    obtain ⟨rfl, rfl⟩ := h
    have hj : j < q.length := by
      by_contra hge
      rw [List.get?_eq_none.2 (by omega)] at hg
      exact Option.noConfusion hg
    refine ⟨List.get?_mem hg, ?_, hj⟩
    rw [List.length_eraseIdx_of_lt hj]
    omega

/-- A coin-flipping pass that releases an element releases it from some
position of the (unchanged) buffer. -/
theorem coinPass_inl (f : Nat → Bool) (q : List α) :
    ∀ i k x q2, coinPass f q i k = Sum.inl (x, q2) →
      ∃ j, popAt q j = some (x, q2) := by
  intro i k
  induction i, k using coinPass.induct f q with
  | case1 i k h hf =>
    intro x q2 heq
    rw [coinPass, dif_pos h, if_pos hf] at heq
    refine ⟨i, ?_⟩
    injection heq with h2
    simp only [Prod.mk.injEq] at h2
    obtain ⟨hx, hq⟩ := h2
    rw [popAt, List.get?_eq_get h]
    simp [hq, ← hx]
  | case2 i k h hf ih =>
    intro x q2 heq
    rw [coinPass, dif_pos h, if_neg (by simp [hf])] at heq
    exact ih x q2 heq
  | case3 i k h =>
    intro x q2 heq
    rw [coinPass, dif_neg h] at heq
    exact Sum.noConfusion heq

/-- A coin-flipping pass that falls through saw only flips of 0 and
advanced the flip counter to the end of the buffer. -/
theorem coinPass_inr (f : Nat → Bool) (q : List α) :
    ∀ i k k2, coinPass f q i k = Sum.inr k2 →
      k2 = k + (q.length - i) ∧ ∀ j, k ≤ j → j < k2 → f j = false := by
  intro i k
  induction i, k using coinPass.induct f q with
  | case1 i k h hf =>
    intro k2 heq
    rw [coinPass, dif_pos h, if_pos hf] at heq
    exact Sum.noConfusion heq
  | case2 i k h hf ih =>
    intro k2 heq
    rw [coinPass, dif_pos h, if_neg (by simp [hf])] at heq
    obtain ⟨hk2, hall⟩ := ih k2 heq
    refine ⟨by omega, ?_⟩
    intro j hj1 hj2
    rcases Nat.eq_or_lt_of_le hj1 with rfl | hlt
    · simpa using hf
    · exact hall j hlt hj2
  | case3 i k h =>
    intro k2 heq
    rw [coinPass, dif_neg h] at heq
    injection heq with h2
    subst h2
    exact ⟨by omega, fun j h1 h2 => by omega⟩

/-- Whatever the `while True` loop of the coin-flipping disciplines
returns was removed from some position of the buffer. -/
theorem coinWhile_some (f : Nat → Bool) (q : List α) :
    ∀ fuel k x q2, coinWhile f q k fuel = some (x, q2) →
      ∃ j, popAt q j = some (x, q2) := by
  intro fuel
  induction fuel with
  | zero => intro k x q2 h; exact Option.noConfusion h
  | succ fuel ih =>
    intro k x q2 h
    rw [coinWhile] at h
    cases hp : coinPass f q 0 k with
    | inl res =>
      rw [hp] at h
      injection h with h2
      exact h2 ▸ coinPass_inl f q 0 k x q2 (by rw [hp, h2])
    | inr k2 =>
      rw [hp] at h
      exact ih k2 x q2 h

/-- If some later coin flip is 1 and the buffer is non-empty, the
`while True` coin-flipping loop returns within a bounded amount of
fuel. -/
theorem coinWhile_terminates (f : Nat → Bool) (q : List α)
    (hL : 0 < q.length) (n : Nat) (hn : f n = true) :
    ∀ d k, k ≤ n → n - k ≤ d → ∃ fuel res, coinWhile f q k fuel = some res := by
  intro d
  induction d with
  | zero =>
    intro k hk hd
    cases hp : coinPass f q 0 k with
    | inl res => exact ⟨1, res, by rw [coinWhile, hp]⟩
    | inr k2 =>
      obtain ⟨hk2, hall⟩ := coinPass_inr f q 0 k k2 hp
      have hkn : n = k := by omega
      have : f n = false := hall n (by omega) (by omega)
      rw [hn] at this
      exact Bool.noConfusion this
  | succ d ih =>
    intro k hk hd
    cases hp : coinPass f q 0 k with
    | inl res => exact ⟨1, res, by rw [coinWhile, hp]⟩
    | inr k2 =>
      obtain ⟨hk2, hall⟩ := coinPass_inr f q 0 k k2 hp
      have hnk2 : k2 ≤ n := by
        by_contra hgt
        have : f n = false := hall n (by omega) (by omega)
        rw [hn] at this
        exact Bool.noConfusion this
      obtain ⟨fuel, res, hres⟩ := ih k2 hnk2 (by omega)
      exact ⟨fuel + 1, res, by rw [coinWhile, hp]; exact hres⟩

/-- The shuffle model consumes exactly its fuel worth of elements. -/
theorem shuffleGo_length (r : Nat → Nat) :
    ∀ n k (q : List α), q.length = n → (shuffleGo r n k q).length = n := by
  intro n
  induction n with
  | zero => intro k q h; rfl
  | succ n ih =>
    intro k q h
    match q with
    | [] => exact absurd h (by simp)
    | x :: xs =>
      have hlt : r k % (x :: xs).length < (x :: xs).length :=
        Nat.mod_lt _ (by simp)
      have herase : ((x :: xs).eraseIdx (r k % (x :: xs).length)).length = n := by
        rw [List.length_eraseIdx_of_lt hlt]
        simp only [List.length_cons] at h ⊢
        omega
      rw [shuffleGo]
      show ((x :: xs).getD (r k % (x :: xs).length) x
          :: shuffleGo r n (k + 1) ((x :: xs).eraseIdx (r k % (x :: xs).length))).length
        = n + 1
      rw [List.length_cons, ih (k + 1) _ herase]

/-- `shuffleModel` is length-preserving, as `random.shuffle` is. -/
theorem shuffleModel_length (r : Nat → Nat) (k : Nat) (q : List α) :
    (shuffleModel r k q).length = q.length :=
  shuffleGo_length r q.length k q rfl

/-- On a non-empty buffer the first flip decides the noisy pass: a 1
releases the head, a 0 returns the noise message with the buffer
untouched. -/
theorem noisyPass_first (f : Nat → Bool) (noise : α) (x : α) (xs : List α)
    (k : Nat) :
    noisyPass f noise (x :: xs) 0 k
      = Sum.inl (if f k then (x, xs) else (noise, x :: xs)) := by
  rw [noisyPass, dif_pos (by simp)]
  by_cases hf : f k
  · simp [hf]
  · simp [hf]

/-- On a non-empty buffer with at least one unit of fuel, the noisy
coin-flipping `get` returns the head on a first flip of 1 and the noise
message otherwise. -/
theorem noisyGet_cons (noise : α) (f : Nat → Bool) (m : Nat) (x : α)
    (xs : List α) :
    noisyCoinFlippingGet noise f (m + 1) (x :: xs)
      = some (if f 0 then (x, xs) else (noise, x :: xs)) := by
  rw [noisyCoinFlippingGet, if_neg (by simp), noisyWhile, noisyPass_first]

/-- C6: the `min_queue_size` disciplines pad the buffer with the noise
sentinel up to at least `min_queue_size` elements before selecting, so
every released element is drawn from a candidate pool of at least
`min_queue_size` messages (the pool is the padded buffer, permuted —
length-preservingly — for the permuted discipline), and exactly one
candidate is removed. -/
theorem C6_min_pool_before_selection (minSize : Nat) (noise : α)
    (q : List α) (rr : Nat → Nat) :
    minSize ≤ (padTo minSize noise q).length ∧
    (shuffleModel rr 0 (padTo minSize noise q)).length
      = (padTo minSize noise q).length ∧
    (∀ f fuel x q2, pureCoinFlipppingGet minSize noise f fuel q = some (x, q2) →
      x ∈ padTo minSize noise q ∧
      q2.length + 1 = (padTo minSize noise q).length) ∧
    (∀ r x q2, pureRandomSamplingGet minSize noise r q = some (x, q2) →
      x ∈ padTo minSize noise q ∧
      q2.length + 1 = (padTo minSize noise q).length) ∧
    (∀ f fuel x q2, permutedCoinFlipppingGet minSize noise rr f fuel q = some (x, q2) →
      x ∈ shuffleModel rr 0 (padTo minSize noise q) ∧
      q2.length + 1 = (padTo minSize noise q).length) := by
  refine ⟨padTo_le_length minSize noise q, shuffleModel_length rr 0 _, ?_, ?_, ?_⟩
  · intro f fuel x q2 h
    obtain ⟨j, hj⟩ := coinWhile_some f (padTo minSize noise q) fuel 0 x q2 h
    obtain ⟨hmem, hlen, _⟩ := popAt_some _ j x q2 hj
    exact ⟨hmem, hlen⟩
  · intro r x q2 h
    obtain ⟨hmem, hlen, _⟩ := popAt_some (padTo minSize noise q)
      (r % (padTo minSize noise q).length) x q2 h
    exact ⟨hmem, hlen⟩
  · intro f fuel x q2 h
    obtain ⟨j, hj⟩ :=
      coinWhile_some f (shuffleModel rr 0 (padTo minSize noise q)) fuel 0 x q2 h
    obtain ⟨hmem, hlen, _⟩ := popAt_some _ j x q2 hj
    refine ⟨hmem, ?_⟩
    rw [← shuffleModel_length rr 0 (padTo minSize noise q)]
    exact hlen

/-- C6 witness: `min_queue_size = 2`, buffer `[5]`: the pool is `[5, 0]`
and pure random sampling with draw 0 removes exactly one of its two
candidates. -/
theorem C6_min_pool_before_selection_witness :
    2 ≤ (padTo 2 (0 : Nat) [5]).length ∧
    ((5 : Nat) ∈ padTo 2 (0 : Nat) [5] ∧
      ([0] : List Nat).length + 1 = (padTo 2 (0 : Nat) [5]).length) :=
  ⟨(C6_min_pool_before_selection 2 0 [5] (fun _ => 0)).1,
   (C6_min_pool_before_selection 2 0 [5] (fun _ => 0)).2.2.2.1 0 5 [0] rfl⟩

/-- C7: every temporal-mix discipline hands back exactly one message
(real or noise) per `get`. The unbounded coin-flipping loops terminate
as soon as the flip stream ever produces a 1 (a fair coin does so with
probability one), the random-sampling and noisy disciplines always, and
the FIFO discipline is total. -/
theorem C7_one_message_per_get (noise : α) (minSize : Nat)
    (hmin : 1 ≤ minSize) (f : Nat → Bool) (hf : ∃ n, f n = true)
    (r : Nat) (rr : Nat → Nat) (q : List α) :
    (∃ fuel res, pureCoinFlipppingGet minSize noise f fuel q = some res) ∧
    (∃ res, pureRandomSamplingGet minSize noise r q = some res) ∧
    (∃ fuel res, permutedCoinFlipppingGet minSize noise rr f fuel q = some res) ∧
    (∀ fuel, 1 ≤ fuel → ∃ res, noisyCoinFlippingGet noise f fuel q = some res) ∧
    (∃ res, nonMixGet noise q = res) := by
  obtain ⟨n, hn⟩ := hf
  have hpadL : 0 < (padTo minSize noise q).length :=
    Nat.lt_of_lt_of_le hmin (padTo_le_length minSize noise q)
  refine ⟨?_, ?_, ?_, ?_, ⟨nonMixGet noise q, rfl⟩⟩
  · obtain ⟨fuel, res, hres⟩ :=
      coinWhile_terminates f (padTo minSize noise q) hpadL n hn n 0
        (Nat.zero_le n) (by omega)
    exact ⟨fuel, res, hres⟩
  · have hi : r % (padTo minSize noise q).length < (padTo minSize noise q).length :=
      Nat.mod_lt _ hpadL
    refine ⟨((padTo minSize noise q).get ⟨_, hi⟩,
      (padTo minSize noise q).eraseIdx (r % (padTo minSize noise q).length)), ?_⟩
    show popAt (padTo minSize noise q) (r % (padTo minSize noise q).length) = _
    rw [popAt, List.get?_eq_get hi]
  · have hL : 0 < (shuffleModel rr 0 (padTo minSize noise q)).length := by
      rw [shuffleModel_length]
      exact hpadL
    obtain ⟨fuel, res, hres⟩ :=
      coinWhile_terminates f (shuffleModel rr 0 (padTo minSize noise q)) hL n hn n 0
        (Nat.zero_le n) (by omega)
    exact ⟨fuel, res, hres⟩
  · intro fuel hfuel
    obtain ⟨m, rfl⟩ : ∃ m, fuel = m + 1 := ⟨fuel - 1, by omega⟩
    match q with
    | [] => exact ⟨(noise, []), rfl⟩
    | x :: xs =>
      exact ⟨if f 0 then (x, xs) else (noise, x :: xs), noisyGet_cons noise f m x xs⟩

/-- C7 witness: an all-ones flip stream on the empty buffer. -/
theorem C7_one_message_per_get_witness :
    (∃ fuel res, pureCoinFlipppingGet 1 (0 : Nat) (fun _ => true) fuel [] = some res) ∧
    (∃ res, pureRandomSamplingGet 1 (0 : Nat) 0 [] = some res) ∧
    (∃ res, noisyCoinFlippingGet (0 : Nat) (fun _ => true) 1 [] = some res) := by
  have h := C7_one_message_per_get (0 : Nat) 1 (by decide) (fun _ => true)
    ⟨0, rfl⟩ 0 (fun _ => 0) []
  exact ⟨h.1, h.2.1, h.2.2.2.1 1 (by decide)⟩

/-- C10: a single noisy coin-flipping `get` returns either the element
at position 0 (removing it) or the noise sentinel (leaving the buffer
unchanged) — never an element at a position ≥ 1, because the scan pops
position 0 on a 1-flip and returns noise on a 0-flip at position 0. -/
theorem C10_noisy_head_or_noise (noise : α) (f : Nat → Bool) (fuel : Nat)
    (hfuel : 1 ≤ fuel) :
    (noisyCoinFlippingGet noise f fuel ([] : List α) = some (noise, [])) ∧
    (∀ (x : α) (xs : List α),
      noisyCoinFlippingGet noise f fuel (x :: xs)
        = some (if f 0 then (x, xs) else (noise, x :: xs))) ∧
    (∀ (x : α) (xs : List α) (res : α × List α),
      noisyCoinFlippingGet noise f fuel (x :: xs) = some res →
      res = (x, xs) ∨ res = (noise, x :: xs)) := by
  obtain ⟨m, rfl⟩ : ∃ m, fuel = m + 1 := ⟨fuel - 1, by omega⟩
  refine ⟨rfl, ?_, ?_⟩
  · intro x xs
    exact noisyGet_cons noise f m x xs
  · intro x xs res h
    rw [noisyGet_cons noise f m x xs] at h
    injection h with h2
    by_cases hf : f 0
    · rw [if_pos hf] at h2
      exact Or.inl h2.symm
    · rw [if_neg hf] at h2
      exact Or.inr h2.symm

/-- C10 witness: an all-zeros flip stream on `[4, 5]` yields the noise
message `9` and leaves the buffer unchanged. -/
theorem C10_noisy_head_or_noise_witness :
    noisyCoinFlippingGet (9 : Nat) (fun _ => false) 1 [4, 5] = some (9, [4, 5]) := by
  have h := (C10_noisy_head_or_noise (9 : Nat) (fun _ => false) 1 (by decide)).2.1 4 [5]
  simpa using h

/-! ## Helper lemmas: the GTR emitter loop -/

/-- With `skip_sending_noise = False` one round of `__run` advances the
clock by `1 / R` and appends exactly one frame to the outbound
connection. -/
theorem mixConnStep_noskip [DecidableEq α] (R : ℚ) (noise : α)
    (put : σ → α → σ) (get : σ → α × σ) (ps : List α) (st : MixConnState σ α) :
    (mixConnStep R false noise put get ps st).now = st.now + 1 / R ∧
    (mixConnStep R false noise put get ps st).sent
      = st.sent ++ [(st.now + 1 / R, (get (ps.foldl put st.queueState)).1)] := by
  constructor <;> simp [mixConnStep]

/-- Over `n` rounds without `skip_sending_noise`, the emitter advances
the clock by `n / R` and the emission timestamps are exactly
`now + 1/R, now + 2/R, …, now + n/R`, one frame per period, whatever
the put schedule and queue discipline. -/
theorem mixConnRun_noskip [DecidableEq α] (R : ℚ) (noise : α)
    (put : σ → α → σ) (get : σ → α × σ) (puts : Nat → List α) :
    ∀ n (st : MixConnState σ α),
      (mixConnRun R false noise put get puts n st).now
        = st.now + n * (1 / R) ∧
      (mixConnRun R false noise put get puts n st).sent.map Prod.fst
        = st.sent.map Prod.fst
          ++ (List.range n).map (fun (i : Nat) => st.now + ((i : ℚ) + 1) * (1 / R)) := by
  intro n
  induction n with
  | zero => intro st; simp [mixConnRun]
  | succ n ih =>
    intro st
    obtain ⟨hnow, hsent⟩ := ih st
    have hstep := mixConnStep_noskip R noise put get (puts n)
      (mixConnRun R false noise put get puts n st)
    rw [mixConnRun]
    constructor
    · rw [hstep.1, hnow]
      push_cast
      ring
    · rw [hstep.2, List.map_append, hsent, List.range_succ, List.map_append,
        List.append_assoc]
      congr 1
      simp [hnow]
      ring

/-- C1: with `skip_sending_noise = False` and transmission rate `R`, the
emitter loop of `MixSimplexConnection` sends exactly one frame onto the
wrapped outbound connection every `1 / R` seconds of virtual time — the
`i`-th frame at time `(i + 1) / R` — regardless of the schedule of puts
into its temporal-mix queue and of the queue discipline in use. -/
theorem C1_gtr_one_frame_per_period {σ α : Type} [DecidableEq α] (R : ℚ)
    (noise : α) (put : σ → α → σ) (get : σ → α × σ) (puts : Nat → List α)
    (qs0 : σ) (n : Nat) :
    (mixConnRun R false noise put get puts n ⟨qs0, [], 0⟩).sent.length = n ∧
    (mixConnRun R false noise put get puts n ⟨qs0, [], 0⟩).sent.map Prod.fst
      = (List.range n).map (fun (i : Nat) => ((i : ℚ) + 1) * (1 / R)) ∧
    (mixConnRun R false noise put get puts n ⟨qs0, [], 0⟩).now = n * (1 / R) := by
  obtain ⟨hnow, hsent⟩ := mixConnRun_noskip R noise put get puts n ⟨qs0, [], 0⟩
  simp only [List.map_nil, List.nil_append] at hsent
  have hsent2 : (mixConnRun R false noise put get puts n ⟨qs0, [], 0⟩).sent.map Prod.fst
      = (List.range n).map (fun (i : Nat) => ((i : ℚ) + 1) * (1 / R)) := by
    rw [hsent]
    simp
  refine ⟨?_, hsent2, by rw [hnow]; simp⟩
  have := congrArg List.length hsent2
  simpa using this

/-- C1 witness: rate 2, two rounds, FIFO discipline, no puts: two frames
at times `1/2` and `1`. -/
theorem C1_gtr_one_frame_per_period_witness :
    (mixConnRun 2 false 0 mixPut (nonMixGet 0) (fun _ => []) 2
      ⟨([] : List Nat), [], 0⟩).sent.length = 2 ∧
    (mixConnRun 2 false 0 mixPut (nonMixGet 0) (fun _ => []) 2
      ⟨([] : List Nat), [], 0⟩).now = 2 * (1 / 2) :=
  ⟨(C1_gtr_one_frame_per_period 2 0 mixPut (nonMixGet 0) (fun _ => []) [] 2).1,
   (C1_gtr_one_frame_per_period 2 0 mixPut (nonMixGet 0) (fun _ => []) [] 2).2.2⟩

/-- C8: `SphinxPacketBuilder.build` fails when the payload exceeds the
maximum message size, when `path_len ≤ 0`, or when `path_len` exceeds
the maximum mix path length; with a non-empty membership and parameters
in range it returns a packet together with a route of exactly
`path_len` hops. -/
theorem C8_sphinx_builder_contract (msg : List Nat) (cfg : GlobalConfig)
    (r : Nat → Nat) (path_len : Int) :
    (path_len ≤ 0 →
      ∃ e, SphinxPacketBuilder_build msg cfg r path_len = Except.error e) ∧
    (cfg.max_message_size < msg.length →
      ∃ e, SphinxPacketBuilder_build msg cfg r path_len = Except.error e) ∧
    ((cfg.max_mix_path_length : Int) < path_len →
      ∃ e, SphinxPacketBuilder_build msg cfg r path_len = Except.error e) ∧
    (cfg.membership.nodes ≠ [] → 0 < path_len →
      msg.length ≤ cfg.max_message_size →
      path_len ≤ (cfg.max_mix_path_length : Int) →
      ∃ pkt route,
        SphinxPacketBuilder_build msg cfg r path_len = Except.ok (pkt, route) ∧
        route.length = path_len.toNat) := by
  refine ⟨?_, ?_, ?_, ?_⟩
  · intro h
    exact ⟨"path_len must be greater than 0",
      by rw [SphinxPacketBuilder_build, if_pos h]⟩
  · intro hM
    by_cases h0 : path_len ≤ 0
    · exact ⟨"path_len must be greater than 0",
        by rw [SphinxPacketBuilder_build, if_pos h0]⟩
    · exact ⟨"message is too long",
        by rw [SphinxPacketBuilder_build, if_neg h0, if_pos hM]⟩
  · intro hL
    have h0 : ¬ path_len ≤ 0 := by omega
    have htn : ¬ path_len.toNat = 0 := by omega
    by_cases hM : cfg.max_message_size < msg.length
    · exact ⟨"message is too long",
        by rw [SphinxPacketBuilder_build, if_neg h0, if_pos hM]⟩
    · by_cases hn : cfg.membership.nodes = []
      · refine ⟨"IndexError", ?_⟩
        simp [SphinxPacketBuilder_build, h0, hM, generate_route, htn, hn]
      · refine ⟨"route too long", ?_⟩
        have hlen0 : ¬ cfg.membership.nodes.length = 0 := by simp [hn]
        have hcond : cfg.max_mix_path_length < path_len.toNat := by omega
        simp [SphinxPacketBuilder_build, h0, hM, generate_route, htn, hlen0,
          sphinxPacketBuild, hcond, Except.map]
  · intro hn hpos hM hL
    have h0 : ¬ path_len ≤ 0 := by omega
    have htn : ¬ path_len.toNat = 0 := by omega
    have hlen0 : ¬ cfg.membership.nodes.length = 0 := by simp [hn]
    have hM2 : ¬ cfg.max_message_size < msg.length := by omega
    refine ⟨⟨msg, path_len.toNat⟩,
      (List.range path_len.toNat).map
        (fun k => cfg.membership.nodes.getD (r k % cfg.membership.nodes.length) 0),
      ?_, by simp⟩
    simp [SphinxPacketBuilder_build, h0, hM2, generate_route, htn, hlen0,
      sphinxPacketBuild, Except.map]
    rw [if_neg (show ¬ (cfg.max_mix_path_length : Int) < path_len by omega)]

/-- C8 witness: membership `[3]`, `M = 4`, `L = 2`, payload `[9]`:
`path_len = 0` fails, `path_len = 1` succeeds with a 1-hop route. -/
theorem C8_sphinx_builder_contract_witness :
    (∃ e, SphinxPacketBuilder_build [9] ⟨⟨[3]⟩, 1, 4, 2⟩ (fun _ => 0) 0
      = Except.error e) ∧
    (∃ pkt route, SphinxPacketBuilder_build [9] ⟨⟨[3]⟩, 1, 4, 2⟩ (fun _ => 0) 1
      = Except.ok (pkt, route) ∧ route.length = (1 : Int).toNat) :=
  ⟨(C8_sphinx_builder_contract [9] ⟨⟨[3]⟩, 1, 4, 2⟩ (fun _ => 0) 0).1 (by decide),
   (C8_sphinx_builder_contract [9] ⟨⟨[3]⟩, 1, 4, 2⟩ (fun _ => 0) 1).2.2.2
     (by decide) (by decide) (by decide) (by decide)⟩
